import Mathlib

/-!
# Verification of the Hamming(7,4) codec (`src/HW/第九周習題/5.py`)

Shallow embedding of the codec script.  Python non-negative `int` values are
modelled as `Nat`, the bitwise operator `^` as `Nat.xor` (`^^^`), Python
lists as `List Nat`, Python `str` as `String`, and a Python function that can
`raise` as one returning `Except String _` whose error value is the message
of the raised exception.  Python's `list[i]` read inside `hamming_encode` /
`hamming_decode` is rendered as `List.getD i 0` wherever a preceding length
check makes the access provably in bounds, and as a guarded access (with the
`IndexError` branch made explicit) where it is not.
-/

/-- `bits_to_str`: Python `"".join(map(str, bits))` — serialize a bit list to
a string of decimal digit characters in positional order. -/
def bits_to_str (bits : List Nat) : String :=
  String.join (bits.map (fun b => toString b))

/-- `str_to_bits`: Python `[int(b) for b in s]`.  `int` applied to a one-digit
string `'0'`..`'9'` yields the digit value, i.e. the code point minus 48; the
claims only apply it to `'0'`/`'1'` characters, where this model is exact. -/
def str_to_bits (s : String) : List Nat :=
  s.data.map (fun c => c.toNat - 48)

/-- `hamming_encode`: encode a 4-bit data list into a 7-bit Hamming codeword.
Raises `ValueError("資料必須是 4 位元。")` when the input length is not 4;
otherwise computes the even-parity bits `p1 = d1^d2^d4`, `p2 = d1^d3^d4`,
`p3 = d2^d3^d4` and returns `[p1, p2, d1, p3, d2, d3, d4]`. -/
def hamming_encode (data_bits : List Nat) : Except String (List Nat) :=
  if data_bits.length ≠ 4 then
    Except.error "資料必須是 4 位元。"
  else
    let d1 := data_bits.getD 0 0
    let d2 := data_bits.getD 1 0
    let d3 := data_bits.getD 2 0
    let d4 := data_bits.getD 3 0
    let p1 := d1 ^^^ d2 ^^^ d4
    let p2 := d1 ^^^ d3 ^^^ d4
    let p3 := d2 ^^^ d3 ^^^ d4
    Except.ok [p1, p2, d1, p3, d2, d3, d4]

/-- `hamming_decode`: decode a received 7-bit codeword, returning the
corrected 4-bit data and the detected 1-based error position (0 = no error).
Raises `ValueError("碼字必須是 7 位元。")` when the input length is not 7.
The correction step `corrected_codeword[error_index] = 1 - ...` reads index
`error_pos - 1`, which Python only guards by `error_pos > 0`; when the input
values are not bits the syndrome can exceed 7 and the read raises
`IndexError`, which the embedding keeps as an explicit error branch. -/
def hamming_decode (codeword : List Nat) : Except String (List Nat × Nat) :=
  if codeword.length ≠ 7 then
    Except.error "碼字必須是 7 位元。"
  else
    let p1_rec := codeword.getD 0 0
    let p2_rec := codeword.getD 1 0
    let d1_rec := codeword.getD 2 0
    let p3_rec := codeword.getD 3 0
    let d2_rec := codeword.getD 4 0
    let d3_rec := codeword.getD 5 0
    let d4_rec := codeword.getD 6 0
    let s1 := p1_rec ^^^ d1_rec ^^^ d2_rec ^^^ d4_rec
    let s2 := p2_rec ^^^ d1_rec ^^^ d3_rec ^^^ d4_rec
    let s3 := p3_rec ^^^ d2_rec ^^^ d3_rec ^^^ d4_rec
    let error_pos := s3 * 4 + s2 * 2 + s1 * 1
    if error_pos > 0 then
      let error_index := error_pos - 1
      if error_index < codeword.length then
        let corrected_codeword :=
          codeword.set error_index (1 - codeword.getD error_index 0)
        Except.ok ([corrected_codeword.getD 2 0, corrected_codeword.getD 4 0,
                    corrected_codeword.getD 5 0, corrected_codeword.getD 6 0],
                   error_pos)
      else
        Except.error "IndexError: list index out of range"
    else
      Except.ok ([codeword.getD 2 0, codeword.getD 4 0,
                  codeword.getD 5 0, codeword.getD 6 0],
                 error_pos)

/-- Single-bit corruption as simulated in the script's `__main__` block:
`received[pos - 1] = 1 - received[pos - 1]` for a 1-based position `pos`. -/
def flip_bit (l : List Nat) (pos : Nat) : List Nat :=
  l.set (pos - 1) (1 - l.getD (pos - 1) 0)

/-- Modelled from the spec: the decode procedure as §4.1 words it, for a
received codeword `(c1, …, c7) = (p1, p2, d1, p3, d2, d3, d4)` — syndrome
`s1 = p1⊕d1⊕d2⊕d4`, `s2 = p2⊕d1⊕d3⊕d4`, `s3 = p3⊕d2⊕d3⊕d4`, error position
`s3·4 + s2·2 + s1·1`, flip at that 1-based position exactly when it is
positive, then extract the bits at 1-based positions 3, 5, 6, 7.  Used only
as the comparison side of the refinement claim about `hamming_decode`. -/
def hamming_decode_spec (c1 c2 c3 c4 c5 c6 c7 : Nat) : List Nat × Nat :=
  let s1 := c1 ^^^ c3 ^^^ c5 ^^^ c7
  let s2 := c2 ^^^ c3 ^^^ c6 ^^^ c7
  let s3 := c4 ^^^ c5 ^^^ c6 ^^^ c7
  let pos := s3 * 4 + s2 * 2 + s1 * 1
  let received := [c1, c2, c3, c4, c5, c6, c7]
  let corrected := if pos > 0 then flip_bit received pos else received
  ([corrected.getD 2 0, corrected.getD 4 0, corrected.getD 5 0,
    corrected.getD 6 0], pos)

section Helpers

/-- A list of length 4 is a literal 4-element list. -/
theorem exists_four_of_length {l : List Nat} (h : l.length = 4) :
    ∃ a b c d, l = [a, b, c, d] := by
  rcases l with _ | ⟨a, _ | ⟨b, _ | ⟨c, _ | ⟨d, _ | ⟨e, t⟩⟩⟩⟩⟩ <;>
    simp_all

/-- A list of length 7 is a literal 7-element list. -/
theorem exists_seven_of_length {l : List Nat} (h : l.length = 7) :
    ∃ a b c d e f g, l = [a, b, c, d, e, f, g] := by
  rcases l with _ | ⟨a, _ | ⟨b, _ | ⟨c, _ | ⟨d, _ | ⟨e, _ | ⟨f, _ | ⟨g, _ | ⟨x, t⟩⟩⟩⟩⟩⟩⟩⟩ <;>
    simp_all

end Helpers

/-- Turn `b ≤ 1` into the two bit cases. -/
theorem bit_eq_zero_or_one {b : Nat} (h : b ≤ 1) : b = 0 ∨ b = 1 :=
  Nat.le_one_iff_eq_zero_or_eq_one.mp h

/-- C4: `hamming_encode` on `[d1, d2, d3, d4]` returns the 7-bit codeword
`(p1, p2, d1, p3, d2, d3, d4)` with `p1 = d1 ⊕ d2 ⊕ d4`, `p2 = d1 ⊕ d3 ⊕ d4`,
`p3 = d2 ⊕ d3 ⊕ d4` (stated for arbitrary `Nat` entries, hence in particular
for bits, where `^^^` is the boolean ⊕). -/
theorem encode_layout_and_parity (d1 d2 d3 d4 : Nat) :
    hamming_encode [d1, d2, d3, d4] =
      Except.ok [d1 ^^^ d2 ^^^ d4, d1 ^^^ d3 ^^^ d4, d1,
                 d2 ^^^ d3 ^^^ d4, d2, d3, d4] :=
  rfl

/-- C2: decoding an uncorrupted codeword `hamming_encode d` yields the
original 4-bit data `d` together with error position 0. -/
theorem decode_encode_roundtrip (l : List Nat) (hlen : l.length = 4)
    (hbits : ∀ b ∈ l, b ≤ 1) :
    (hamming_encode l).bind hamming_decode = Except.ok (l, 0) := by
  obtain ⟨a, b, c, d, rfl⟩ := exists_four_of_length hlen
  have ha := bit_eq_zero_or_one (hbits a (by simp))
  have hb := bit_eq_zero_or_one (hbits b (by simp))
  have hc := bit_eq_zero_or_one (hbits c (by simp))
  have hd := bit_eq_zero_or_one (hbits d (by simp))
  rcases ha with rfl | rfl <;> rcases hb with rfl | rfl <;>
    rcases hc with rfl | rfl <;> rcases hd with rfl | rfl <;> rfl

/-- Witness for C2 at the data word 1011. -/
theorem decode_encode_roundtrip_witness :
    (hamming_encode [1, 0, 1, 1]).bind hamming_decode =
      Except.ok ([1, 0, 1, 1], 0) :=
  decode_encode_roundtrip [1, 0, 1, 1] rfl (by decide)

/-- C1: for every 4-bit data word and every position `p ∈ 1..7`, flipping
bit `p` of the encoded codeword and decoding recovers the original data and
reports error position exactly `p`. -/
theorem single_error_corrected (l : List Nat) (hlen : l.length = 4)
    (hbits : ∀ b ∈ l, b ≤ 1) (p : Nat) (hp1 : 1 ≤ p) (hp7 : p ≤ 7) :
    (hamming_encode l).bind (fun cw => hamming_decode (flip_bit cw p)) =
      Except.ok (l, p) := by
  obtain ⟨a, b, c, d, rfl⟩ := exists_four_of_length hlen
  have ha := bit_eq_zero_or_one (hbits a (by simp))
  have hb := bit_eq_zero_or_one (hbits b (by simp))
  have hc := bit_eq_zero_or_one (hbits c (by simp))
  have hd := bit_eq_zero_or_one (hbits d (by simp))
  interval_cases p <;>
    (rcases ha with rfl | rfl <;> rcases hb with rfl | rfl <;>
      rcases hc with rfl | rfl <;> rcases hd with rfl | rfl <;> rfl)

/-- Witness for C1: data word 1011, flipped position 5. -/
theorem single_error_corrected_witness :
    (hamming_encode [1, 0, 1, 1]).bind
        (fun cw => hamming_decode (flip_bit cw 5)) =
      Except.ok ([1, 0, 1, 1], 5) :=
  single_error_corrected [1, 0, 1, 1] rfl (by decide) 5 (by decide) (by decide)

/-- Helper: on a 7-element bit list, `hamming_decode` computes exactly what
`hamming_decode_spec` prescribes. -/
theorem decode_eq_spec_on_bits (c1 c2 c3 c4 c5 c6 c7 : Nat)
    (h1 : c1 ≤ 1) (h2 : c2 ≤ 1) (h3 : c3 ≤ 1) (h4 : c4 ≤ 1)
    (h5 : c5 ≤ 1) (h6 : c6 ≤ 1) (h7 : c7 ≤ 1) :
    hamming_decode [c1, c2, c3, c4, c5, c6, c7] =
      Except.ok (hamming_decode_spec c1 c2 c3 c4 c5 c6 c7) := by
  rcases bit_eq_zero_or_one h1 with rfl | rfl <;>
    rcases bit_eq_zero_or_one h2 with rfl | rfl <;>
    rcases bit_eq_zero_or_one h3 with rfl | rfl <;>
    rcases bit_eq_zero_or_one h4 with rfl | rfl <;>
    rcases bit_eq_zero_or_one h5 with rfl | rfl <;>
    rcases bit_eq_zero_or_one h6 with rfl | rfl <;>
    rcases bit_eq_zero_or_one h7 with rfl | rfl <;> rfl

/-- Helper: on a 4-element bit list, `hamming_encode` succeeds and returns a
7-element bit list. -/
theorem encode_ok_of_bits (l : List Nat) (hlen : l.length = 4)
    (hbits : ∀ b ∈ l, b ≤ 1) :
    ∃ cw, hamming_encode l = Except.ok cw ∧ cw.length = 7 ∧ ∀ x ∈ cw, x ≤ 1 := by
  obtain ⟨a, b, c, d, rfl⟩ := exists_four_of_length hlen
  have ha := bit_eq_zero_or_one (hbits a (by simp))
  have hb := bit_eq_zero_or_one (hbits b (by simp))
  have hc := bit_eq_zero_or_one (hbits c (by simp))
  have hd := bit_eq_zero_or_one (hbits d (by simp))
  rcases ha with rfl | rfl <;> rcases hb with rfl | rfl <;>
    rcases hc with rfl | rfl <;> rcases hd with rfl | rfl <;>
    exact ⟨_, rfl, rfl, by decide⟩

/-- Helper: on a 7-element bit list, `hamming_decode` succeeds and returns a
4-element bit list together with an error position at most 7. -/
theorem decode_ok_of_bits (l : List Nat) (hlen : l.length = 7)
    (hbits : ∀ b ∈ l, b ≤ 1) :
    ∃ data pos, hamming_decode l = Except.ok (data, pos) ∧
      data.length = 4 ∧ (∀ x ∈ data, x ≤ 1) ∧ pos ≤ 7 := by
  obtain ⟨a, b, c, d, e, f, g, rfl⟩ := exists_seven_of_length hlen
  have ha := bit_eq_zero_or_one (hbits a (by simp))
  have hb := bit_eq_zero_or_one (hbits b (by simp))
  have hc := bit_eq_zero_or_one (hbits c (by simp))
  have hd := bit_eq_zero_or_one (hbits d (by simp))
  have he := bit_eq_zero_or_one (hbits e (by simp))
  have hf := bit_eq_zero_or_one (hbits f (by simp))
  have hg := bit_eq_zero_or_one (hbits g (by simp))
  rcases ha with rfl | rfl <;> rcases hb with rfl | rfl <;>
    rcases hc with rfl | rfl <;> rcases hd with rfl | rfl <;>
    rcases he with rfl | rfl <;> rcases hf with rfl | rfl <;>
    rcases hg with rfl | rfl <;>
    exact ⟨_, _, rfl, rfl, by decide, by decide⟩

/-- C3: on every 7-bit codeword, `hamming_decode` computes the syndrome
`s1 = p1⊕d1⊕d2⊕d4`, `s2 = p2⊕d1⊕d3⊕d4`, `s3 = p3⊕d2⊕d3⊕d4`, reports error
position `s3·4 + s2·2 + s1·1`, flips the bit at that 1-based position exactly
when it is positive, and returns the bits at 1-based positions 3, 5, 6, 7 of
the (possibly corrected) copy — i.e. it refines `hamming_decode_spec`. -/
theorem decode_refines_spec (c1 c2 c3 c4 c5 c6 c7 : Nat)
    (h1 : c1 ≤ 1) (h2 : c2 ≤ 1) (h3 : c3 ≤ 1) (h4 : c4 ≤ 1)
    (h5 : c5 ≤ 1) (h6 : c6 ≤ 1) (h7 : c7 ≤ 1) :
    hamming_decode [c1, c2, c3, c4, c5, c6, c7] =
      Except.ok (hamming_decode_spec c1 c2 c3 c4 c5 c6 c7) :=
  decode_eq_spec_on_bits c1 c2 c3 c4 c5 c6 c7 h1 h2 h3 h4 h5 h6 h7

/-- Witness for C3 at the received word 0110111 (codeword of 1011 with
position 5 flipped). -/
theorem decode_refines_spec_witness :
    hamming_decode [0, 1, 1, 0, 1, 1, 1] =
      Except.ok (hamming_decode_spec 0 1 1 0 1 1 1) :=
  decode_refines_spec 0 1 1 0 1 1 1 (by decide) (by decide) (by decide)
    (by decide) (by decide) (by decide) (by decide)

/-- C5: on bit sequences, `hamming_encode` fails — with the length error
`"資料必須是 4 位元。"` — exactly when the input is not 4 bits long,
`hamming_decode` fails — with the length error `"碼字必須是 7 位元。"` —
exactly when the input is not 7 bits long, and neither function ever
produces any other error value. -/
theorem invalid_length_iff (l : List Nat) (hbits : ∀ b ∈ l, b ≤ 1) :
    (hamming_encode l = Except.error "資料必須是 4 位元。" ↔ l.length ≠ 4) ∧
    (hamming_decode l = Except.error "碼字必須是 7 位元。" ↔ l.length ≠ 7) ∧
    (∀ e, hamming_encode l = Except.error e → e = "資料必須是 4 位元。") ∧
    (∀ e, hamming_decode l = Except.error e → e = "碼字必須是 7 位元。") := by
  refine ⟨?_, ?_, ?_, ?_⟩
  · by_cases h4 : l.length = 4
    · simp [hamming_encode, h4]
    · simp [hamming_encode, h4]
  · by_cases h7 : l.length = 7
    · obtain ⟨data, pos, hok, -, -, -⟩ := decode_ok_of_bits l h7 hbits
      rw [hok]
      simp [h7]
    · simp [hamming_decode, h7]
  · by_cases h4 : l.length = 4
    · simp [hamming_encode, h4]
    · simp [hamming_encode, h4]
  · by_cases h7 : l.length = 7
    · obtain ⟨data, pos, hok, -, -, -⟩ := decode_ok_of_bits l h7 hbits
      rw [hok]
      simp
    · simp [hamming_decode, h7]

/-- Witness for C5 at the 3-bit input 000: `hamming_encode` rejects it with
the length error and `hamming_decode` rejects it with the length error. -/
theorem invalid_length_iff_witness :
    (hamming_encode [0, 0, 0] = Except.error "資料必須是 4 位元。") ∧
    (hamming_decode [0, 0, 0] = Except.error "碼字必須是 7 位元。") :=
  ⟨((invalid_length_iff [0, 0, 0] (by decide)).1).mpr (by decide),
   ((invalid_length_iff [0, 0, 0] (by decide)).2.1).mpr (by decide)⟩

/-- C6: `hamming_encode` is total on 4-bit inputs, always returning exactly
7 bits, and `hamming_decode` is total on 7-bit inputs — valid codeword or
not — always returning exactly 4 bits plus an error position in `[0, 7]`. -/
theorem codec_total_on_bits (l : List Nat) (hbits : ∀ b ∈ l, b ≤ 1) :
    (l.length = 4 →
      ∃ cw, hamming_encode l = Except.ok cw ∧ cw.length = 7 ∧
        ∀ x ∈ cw, x ≤ 1) ∧
    (l.length = 7 →
      ∃ data pos, hamming_decode l = Except.ok (data, pos) ∧
        data.length = 4 ∧ (∀ x ∈ data, x ≤ 1) ∧ pos ≤ 7) :=
  ⟨fun h4 => encode_ok_of_bits l h4 hbits,
   fun h7 => decode_ok_of_bits l h7 hbits⟩

/-- Witness for C6: the encode side at the 4-bit word 1011 and the decode
side at the invalid (non-codeword) 7-bit word 1111110. -/
theorem codec_total_on_bits_witness :
    (∃ cw, hamming_encode [1, 0, 1, 1] = Except.ok cw ∧ cw.length = 7 ∧
      ∀ x ∈ cw, x ≤ 1) ∧
    (∃ data pos, hamming_decode [1, 1, 1, 1, 1, 1, 0] =
        Except.ok (data, pos) ∧
      data.length = 4 ∧ (∀ x ∈ data, x ≤ 1) ∧ pos ≤ 7) :=
  ⟨(codec_total_on_bits [1, 0, 1, 1] (by decide)).1 rfl,
   (codec_total_on_bits [1, 1, 1, 1, 1, 1, 0] (by decide)).2 rfl⟩

/-- C7 counterexample: `hamming_encode [1,0,1,1]` is NOT the codeword
0111011 claimed by the spec's trace — its p3 must be d2⊕d3⊕d4 = 0⊕1⊕1 = 0,
not 1. -/
theorem known_example_counterexample :
    hamming_encode [1, 0, 1, 1] ≠ Except.ok [0, 1, 1, 1, 0, 1, 1] := by
  intro h
  rw [show hamming_encode [1, 0, 1, 1] = Except.ok [0, 1, 1, 0, 0, 1, 1]
        from rfl] at h
  exact absurd (Except.ok.inj h) (by decide)

/-- C7 (amended): data 1011 encodes to the codeword 0110011
(p1=0, p2=1, d1=1, p3=0, d2=0, d3=1, d4=1); flipping its position 5 gives
0110111, and decoding that reports error position 5 and recovers 1011. -/
theorem known_example :
    hamming_encode [1, 0, 1, 1] = Except.ok [0, 1, 1, 0, 0, 1, 1] ∧
    flip_bit [0, 1, 1, 0, 0, 1, 1] 5 = [0, 1, 1, 0, 1, 1, 1] ∧
    hamming_decode [0, 1, 1, 0, 1, 1, 1] = Except.ok ([1, 0, 1, 1], 5) :=
  ⟨rfl, rfl, rfl⟩

/-- C8: serializing the bit list parsed from a string of '0'/'1' characters
returns the original string: `bits_to_str (str_to_bits s) = s`. -/
theorem str_bits_roundtrip (s : String)
    (h : ∀ c ∈ s.data, c = '0' ∨ c = '1') :
    bits_to_str (str_to_bits s) = s := by
  obtain ⟨cs⟩ := s
  apply String.ext
  show (String.join ((cs.map (fun c => c.toNat - 48)).map
          (fun b => toString b))).data = cs
  rw [String.data_join]
  induction cs with
  | nil => rfl
  | cons c rest ih =>
      have hc := h c (by simp)
      have hrest : ∀ x ∈ rest, x = '0' ∨ x = '1' := fun x hx => h x (by simp [hx])
      have h0 : (toString (('0').toNat - 48)).data = ['0'] := rfl
      have h1 : (toString (('1').toNat - 48)).data = ['1'] := rfl
      rcases hc with rfl | rfl <;>
        simp only [List.map_cons, List.flatten_cons, h0, h1, ih hrest,
          List.singleton_append]

/-- Witness for C8 at the string "1011". -/
theorem str_bits_roundtrip_witness :
    bits_to_str (str_to_bits "1011") = "1011" :=
  str_bits_roundtrip "1011" (by decide)

/-- C9 counterexample: `hamming_encode [0, 0, 0]` aborts with the diagnostic
"資料必須是 4 位元。", which states the expected length 4 but contains no
occurrence of the character '3', hence no identification of the actual
length 3 of the supplied input. -/
theorem diagnostic_counterexample :
    hamming_encode [0, 0, 0] = Except.error "資料必須是 4 位元。" ∧
    ('3') ∉ "資料必須是 4 位元。".data :=
  ⟨rfl, by decide⟩

/-- C9 (amended): on malformed-length input the diagnostic identifies the
expected length (4 for encode, 7 for decode) — but not the actual length of
the supplied input. -/
theorem diagnostic_names_expected_length (l : List Nat) :
    (l.length ≠ 4 →
      hamming_encode l = Except.error "資料必須是 4 位元。" ∧
      ('4') ∈ "資料必須是 4 位元。".data) ∧
    (l.length ≠ 7 →
      hamming_decode l = Except.error "碼字必須是 7 位元。" ∧
      ('7') ∈ "碼字必須是 7 位元。".data) := by
  constructor
  · intro h4
    exact ⟨by simp [hamming_encode, h4], by decide⟩
  · intro h7
    exact ⟨by simp [hamming_decode, h7], by decide⟩

/-- Witness for C9 (amended) at the 3-bit input 000. -/
theorem diagnostic_names_expected_length_witness :
    (hamming_encode [0, 0, 0] = Except.error "資料必須是 4 位元。" ∧
      ('4') ∈ "資料必須是 4 位元。".data) ∧
    (hamming_decode [0, 0, 0] = Except.error "碼字必須是 7 位元。" ∧
      ('7') ∈ "碼字必須是 7 位元。".data) :=
  ⟨(diagnostic_names_expected_length [0, 0, 0]).1 (by decide),
   (diagnostic_names_expected_length [0, 0, 0]).2 (by decide)⟩

/-- C10 counterexample: `hamming_decode` does NOT accept every length-7
integer list — on `[8, 0, 0, 0, 0, 0, 0]` the syndrome yields error position
8, and the correction step's read of index 7 raises `IndexError`. -/
theorem no_value_check_counterexample :
    hamming_decode [8, 0, 0, 0, 0, 0, 0] =
      Except.error "IndexError: list index out of range" :=
  rfl

/-- C10 (amended): neither function checks that input elements are bits.
`hamming_encode` accepts the length-4 list `[2, 0, 0, 0]` without error and
returns a 7-element list containing a value outside {0, 1}; `hamming_decode`
accepts every length-7 list of bits without any value check (though, per the
counterexample, not every length-7 integer list: a large value can push the
computed error position past the end of the list). -/
theorem no_value_check (l : List Nat) (hlen : l.length = 7)
    (hbits : ∀ b ∈ l, b ≤ 1) :
    (∃ cw, hamming_encode [2, 0, 0, 0] = Except.ok cw ∧ cw.length = 7 ∧
      ∃ v ∈ cw, 1 < v) ∧
    (∃ out, hamming_decode l = Except.ok out) := by
  refine ⟨⟨[2, 2, 2, 0, 0, 0, 0], rfl, rfl, 2, by decide, by decide⟩, ?_⟩
  obtain ⟨data, pos, hok, -, -, -⟩ := decode_ok_of_bits l hlen hbits
  exact ⟨(data, pos), hok⟩

/-- Witness for C10 (amended) at the all-zero 7-bit word. -/
theorem no_value_check_witness :
    (∃ cw, hamming_encode [2, 0, 0, 0] = Except.ok cw ∧ cw.length = 7 ∧
      ∃ v ∈ cw, 1 < v) ∧
    (∃ out, hamming_decode [0, 0, 0, 0, 0, 0, 0] = Except.ok out) :=
  no_value_check [0, 0, 0, 0, 0, 0, 0] rfl (by decide)
